import Mathlib

/-!
Shallow embedding of the rpgm-enc core (src/rpgm-enc/src/types.rs and
src/rpgm-enc/src/decrypter.rs).

Byte buffers are modelled as List Nat (every Rust u8 value is < 256; theorems
carry that bound as a hypothesis where it matters).  Rust strings that are
manipulated byte-wise are modelled as List Char (all relevant strings are
ASCII).  Fallible Rust functions returning Result are modelled with Res; a
Rust panic (out-of-bounds slice or index) is modelled by the Res.panicked
constructor, and by Option.none for the two private helpers build_fake_header
and verify_fake_header, whose only failure mode is a panic.
-/

set_option maxRecDepth 8000

namespace RpgmEnc

/-- Models char::is_ascii_hexdigit from Rust. -/
def isAsciiHexDigit (c : Char) : Bool :=
  decide (('0' ≤ c ∧ c ≤ '9') ∨ ('a' ≤ c ∧ c ≤ 'f') ∨ ('A' ≤ c ∧ c ≤ 'F'))

/-- Value of a single hexadecimal digit, none for a non-digit. -/
def hexDigitVal (c : Char) : Option Nat :=
  if '0' ≤ c ∧ c ≤ '9' then some (c.toNat - '0'.toNat)
  else if 'a' ≤ c ∧ c ≤ 'f' then some (c.toNat - 'a'.toNat + 10)
  else if 'A' ≤ c ∧ c ≤ 'F' then some (c.toNat - 'A'.toNat + 10)
  else none

/-- Lower-case hex digit character for a value below 16. -/
def hexChar (n : Nat) : Char :=
  if n < 10 then Char.ofNat ('0'.toNat + n) else Char.ofNat ('a'.toNat + (n - 10))

/-- Models the Rust format string for a two-digit lower-case hex byte, as
applied to u8 values (always < 256 in the source). -/
def byteToHexChars (b : Nat) : List Char :=
  [hexChar (b / 16), hexChar (b % 16)]

/-- Models u8::from_str_radix(s, 16): an optional single leading plus sign,
then a non-empty run of hex digits, value at most 255. -/
def parseU8Radix16 (cs : List Char) : Option Nat :=
  let ds := if cs.head? = some '+' then cs.tail else cs
  if ds.isEmpty then none
  else
    match ds.foldl (fun acc c =>
        match acc, hexDigitVal c with
        | some a, some d => some (16 * a + d)
        | _, _ => none) (some 0) with
    | none => none
    | some v => if v ≤ 255 then some v else none

/-- Models str::split(' ') on an ASCII string. -/
def splitOnSpace : List Char → List (List Char)
  | [] => [[]]
  | c :: rest =>
    if c = ' ' then [] :: splitOnSpace rest
    else
      match splitOnSpace rest with
      | [] => [[c]]
      | h :: t => (c :: h) :: t

/-- Models slice::chunks(2): pairs of consecutive elements, a final
singleton when the length is odd. -/
def chunks2 : List Char → List (List Char)
  | [] => []
  | [a] => [[a]]
  | a :: b :: rest => [a, b] :: chunks2 rest

/-- The payload-free variants of the Error enum in types.rs that the
embedded operations can produce. -/
inductive Err where
  | invalidKey
  | invalidHeader
  | emptyFile
  deriving DecidableEq, Repr

/-- Outcome of a fallible Rust operation: Ok, a typed Err, or a panic
(out-of-bounds slice or index). -/
inductive Res (α : Type) where
  | ok : α → Res α
  | err : Err → Res α
  | panicked : Res α
  deriving DecidableEq, Repr

/-- The Key struct from types.rs: the raw hex string and its decoded bytes. -/
structure Key where
  raw : List Char
  bytes : List Nat
  deriving DecidableEq, Repr

/-- Key::is_valid_hex: every character is an ASCII hex digit. -/
def Key.isValidHex (s : List Char) : Bool :=
  s.all isAsciiHexDigit

/-- Key::new: validate the hex string, then decode chunks of two characters
(filter_map: unparsable chunks are dropped). -/
def Key.new (key : List Char) : Option Key :=
  if Key.isValidHex key then
    some { raw := key, bytes := (chunks2 key).filterMap parseU8Radix16 }
  else
    none

/-- The PNG_HEADER hex-byte table private to Key in types.rs. -/
def Key.PNG_HEADER : List Char :=
  "89 50 4E 47 0D 0A 1A 0A 00 00 00 0D 49 48 44 52".toList

/-- Key::get_png_header_bytes: first header_len space-separated tokens of the
PNG table, parsed (filter_map). -/
def Key.getPngHeaderBytes (headerLen : Nat) : List Nat :=
  ((splitOnSpace Key.PNG_HEADER).take headerLen).filterMap parseU8Radix16

/-- Key::from_png_header: recover the key by XORing data bytes at
positions header_len..2*header_len against the known PNG true header.
Indexing png_header with an index beyond its length is a Rust panic,
modelled by Res.panicked. -/
def Key.fromPngHeader (headerLen : Nat) (data : List Nat) : Res (Option Key) :=
  if data.length < headerLen * 2 then Res.ok none
  else
    let fileHeader := (data.drop headerLen).take headerLen
    let pngHeader := Key.getPngHeaderBytes headerLen
    if pngHeader.length < headerLen then Res.panicked
    else
      let keyChars := (List.range headerLen).flatMap fun i =>
        byteToHexChars ((pngHeader.getD i 0) ^^^ (fileHeader.getD i 0))
      Res.ok (Key.new keyChars)

/-- The RPGMakerVersion enum from types.rs. -/
inductive RPGMakerVersion where
  | MV
  | MZ
  deriving DecidableEq, Repr, Fintype

/-- The FileExtension enum from types.rs: three plain formats, three MV
encrypted names, three MZ encrypted names. -/
inductive FileExtension where
  | PNG
  | OGG
  | M4A
  | RPGMVP
  | RPGMVO
  | RPGMVM
  | PNG_
  | OGG_
  | M4A_
  deriving DecidableEq, Repr, Fintype

/-- FileExtension::is_encrypted. -/
def FileExtension.isEncrypted : FileExtension → Bool
  | .RPGMVP | .RPGMVO | .RPGMVM | .PNG_ | .OGG_ | .M4A_ => true
  | _ => false

/-- FileExtension::get_mime_type. -/
def FileExtension.getMimeType : FileExtension → String
  | .PNG | .RPGMVP | .PNG_ => "image/png"
  | .OGG | .RPGMVO | .OGG_ => "audio/ogg"
  | .M4A | .RPGMVM | .M4A_ => "audio/m4a"

/-- FileExtension::convert from types.rs. -/
def FileExtension.convert (e : FileExtension) (toNormal : Bool)
    (version : RPGMakerVersion) : FileExtension :=
  if toNormal then
    match e with
    | .RPGMVP | .PNG_ => .PNG
    | .RPGMVO | .OGG_ => .OGG
    | .RPGMVM | .M4A_ => .M4A
    | _ => e
  else
    match e, version with
    | .RPGMVP, _ | .PNG_, _ => e
    | .RPGMVO, _ | .OGG_, _ => e
    | .RPGMVM, _ | .M4A_, _ => e
    | .PNG, .MZ => .PNG_
    | .PNG, .MV => .RPGMVP
    | .OGG, .MZ => .OGG_
    | .OGG, .MV => .RPGMVO
    | .M4A, .MZ => .M4A_
    | .M4A, .MV => .RPGMVM

/-- The Decrypter struct from decrypter.rs. -/
structure Decrypter where
  key : Option Key
  ignoreFakeHeader : Bool
  headerLen : Option Nat
  signature : Option (List Char)
  version : Option (List Char)
  remain : Option (List Char)
  pngHeaderLen : Option Nat
  oggHeaderLen : Option Nat
  m4aHeaderLen : Option Nat
  deriving DecidableEq, Repr

namespace Decrypter

def DEFAULT_HEADER_LEN : Nat := 16

def DEFAULT_SIGNATURE : List Char := "5250474d56000000".toList

def DEFAULT_VERSION : List Char := "000301".toList

def DEFAULT_REMAIN : List Char := "0000000000".toList

def PNG_HEADER_BYTES : List Char :=
  "89 50 4E 47 0D 0A 1A 0A 00 00 00 0D 49 48 44 52".toList

def OGG_HEADER_BYTES : List Char :=
  "4F 67 67 53 00 00 00 00 00 00 00 00 00 00 00 00 00 00 00 00 00 00 00 00 00 00 00".toList

def M4A_HEADER_BYTES : List Char :=
  "00 00 00 20 66 74 79 70 4D 34 41 20 00 00 00 00".toList

/-- Decrypter::new: a key and every configuration field unset. -/
def new (key : Option Key) : Decrypter :=
  { key := key
    ignoreFakeHeader := false
    headerLen := none
    signature := none
    version := none
    remain := none
    pngHeaderLen := none
    oggHeaderLen := none
    m4aHeaderLen := none }

def getHeaderLen (d : Decrypter) : Nat :=
  d.headerLen.getD DEFAULT_HEADER_LEN

def getSignature (d : Decrypter) : List Char :=
  d.signature.getD DEFAULT_SIGNATURE

def getVersion (d : Decrypter) : List Char :=
  d.version.getD DEFAULT_VERSION

def getRemain (d : Decrypter) : List Char :=
  d.remain.getD DEFAULT_REMAIN

/-- Decrypter::build_fake_header: decode successive two-character slices of
signature ++ version ++ remain into header_len bytes, byte 0 for an
unparsable pair.  Slicing the concatenation out of range (fewer than
2 * header_len characters available) is a Rust panic, modelled by none. -/
def buildFakeHeader (d : Decrypter) : Option (List Nat) :=
  let headerStructure := d.getSignature ++ d.getVersion ++ d.getRemain
  if 2 * d.getHeaderLen ≤ headerStructure.length then
    some ((List.range d.getHeaderLen).map fun i =>
      (parseU8Radix16 ((headerStructure.drop (i * 2)).take 2)).getD 0)
  else
    none

/-- Decrypter::verify_fake_header: false when the buffer is shorter than
header_len, otherwise compare the first header_len bytes against the built
fake header.  none models the panic propagated from build_fake_header. -/
def verifyFakeHeader (d : Decrypter) (fileHeader : List Nat) : Option Bool :=
  match d.buildFakeHeader with
  | none => none
  | some fakeHeader =>
    if fileHeader.length < d.getHeaderLen then some false
    else
      some ((List.range d.getHeaderLen).all fun i =>
        fileHeader.getD i 0 == fakeHeader.getD i 0)

/-- The indexed loop inside Decrypter::xor_bytes: XOR element i with key
byte i for every i below n, leave the rest unchanged. -/
def xorIdx (keyBytes : List Nat) (n : Nat) : Nat → List Nat → List Nat
  | _, [] => []
  | i, b :: rest =>
    (if i < n then b ^^^ keyBytes.getD i 0 else b) :: xorIdx keyBytes n (i + 1) rest

/-- Decrypter::xor_bytes: no key means no change; otherwise XOR the first
min(header_len, data len, key len) bytes against the key bytes. -/
def xorBytes (d : Decrypter) (data : List Nat) : List Nat :=
  match d.key with
  | none => data
  | some key =>
    xorIdx key.bytes (min (min d.getHeaderLen data.length) key.bytes.length) 0 data

/-- Decrypter::decrypt.  The source slices data[0..header_len] before any
length check and data[header_len..] after it; both slices panic on a
non-empty buffer shorter than header_len, modelled by Res.panicked. -/
def decrypt (d : Decrypter) (data : List Nat) : Res (List Nat) :=
  if data = [] then Res.err Err.emptyFile
  else
    let headerCheck : Res Unit :=
      if d.ignoreFakeHeader then Res.ok ()
      else if data.length < d.getHeaderLen then Res.panicked
      else
        match d.verifyFakeHeader (data.take d.getHeaderLen) with
        | none => Res.panicked
        | some true => Res.ok ()
        | some false => Res.err Err.invalidHeader
    match headerCheck with
    | Res.err e => Res.err e
    | Res.panicked => Res.panicked
    | Res.ok _ =>
      if data.length < d.getHeaderLen then Res.panicked
      else Res.ok (d.xorBytes (data.drop d.getHeaderLen))

/-- Decrypter::encrypt: XOR the payload, prepend a freshly built fake
header, then re-verify that header as a self-check. -/
def encrypt (d : Decrypter) (data : List Nat) : Res (List Nat) :=
  if data = [] then Res.err Err.emptyFile
  else
    let content := d.xorBytes data
    match d.buildFakeHeader with
    | none => Res.panicked
    | some fakeHeader =>
      let result := fakeHeader ++ content
      if result.length < d.getHeaderLen then Res.panicked
      else
        match d.verifyFakeHeader (result.take d.getHeaderLen) with
        | none => Res.panicked
        | some false => Res.err Err.invalidHeader
        | some true => Res.ok result

/-- Decrypter::get_header_bytes: split the static table on spaces, keep the
first min(header_len, token count) tokens, parse each (byte 0 on failure). -/
def getHeaderBytes (headerStr : List Char) (headerLen : Nat) : List Nat :=
  let headerToRestore := splitOnSpace headerStr
  let len := min headerLen headerToRestore.length
  (headerToRestore.take len).map fun tok => (parseU8Radix16 tok).getD 0

/-- Decrypter::restore_header. -/
def restoreHeader (d : Decrypter) (data : List Nat) (fileType : FileExtension) :
    Res (List Nat) :=
  if data = [] then Res.err Err.emptyFile
  else
    let hasCorrectHeader : Bool :=
      match fileType with
      | .OGG | .RPGMVO | .OGG_ =>
        decide (4 ≤ data.length) && (data.take 4 == [0x4F, 0x67, 0x67, 0x53])
      | .PNG | .RPGMVP | .PNG_ =>
        decide (8 ≤ data.length) &&
          (data.take 8 == [0x89, 0x50, 0x4E, 0x47, 0x0D, 0x0A, 0x1A, 0x0A])
      | .M4A | .RPGMVM | .M4A_ =>
        decide (8 ≤ data.length) && ((data.drop 4).take 4 == [0x66, 0x74, 0x79, 0x70])
    if hasCorrectHeader then Res.ok data
    else
      let fakeHeaderLen := d.getHeaderLen
      let sel : Nat × List Char :=
        match fileType with
        | .PNG | .RPGMVP | .PNG_ => (d.pngHeaderLen.getD fakeHeaderLen, PNG_HEADER_BYTES)
        | .OGG | .RPGMVO | .OGG_ => (d.oggHeaderLen.getD 28, OGG_HEADER_BYTES)
        | .M4A | .RPGMVM | .M4A_ => (d.m4aHeaderLen.getD fakeHeaderLen, M4A_HEADER_BYTES)
      let header := getHeaderBytes sel.2 sel.1
      let hasFakeHeaderRes : Option Bool :=
        if d.getHeaderLen ≤ data.length then d.verifyFakeHeader (data.take d.getHeaderLen)
        else some false
      match hasFakeHeaderRes with
      | none => Res.panicked
      | some hasFakeHeader =>
        if hasFakeHeader then
          if data.length < fakeHeaderLen then Res.err Err.invalidHeader
          else Res.ok (header ++ data.drop fakeHeaderLen)
        else Res.ok (header ++ data)

end Decrypter

/-- The default fake header: the decoded concatenation of the default
signature, version and remain hex strings, 16 bytes. -/
def defaultFakeHeader : List Nat :=
  [0x52, 0x50, 0x47, 0x4D, 0x56, 0, 0, 0, 0, 3, 1, 0, 0, 0, 0, 0]

/-- The 16 bytes of the public PNG magic header table. -/
def PNG_TRUE_HEADER : List Nat :=
  [0x89, 0x50, 0x4E, 0x47, 0x0D, 0x0A, 0x1A, 0x0A, 0, 0, 0, 0x0D, 0x49, 0x48, 0x44, 0x52]

/-- The OGG true header actually produced by the static table: the 4 magic
bytes followed by 23 zero bytes, 27 bytes in total. -/
def OGG_TRUE_HEADER : List Nat :=
  [0x4F, 0x67, 0x67, 0x53] ++ List.replicate 23 0

/-- The first 8 bytes of the PNG signature used by the magic check in
restore_header. -/
def pngMagic8 : List Nat :=
  [0x89, 0x50, 0x4E, 0x47, 0x0D, 0x0A, 0x1A, 0x0A]

/-- A concrete key, hex deadbeef, used to instantiate universally
quantified theorems. -/
def sampleKey : Key :=
  { raw := "deadbeef".toList, bytes := [0xDE, 0xAD, 0xBE, 0xEF] }

/-!  Helper lemmas shared between the claim theorems. -/

theorem xorIdx_length (kb : List Nat) (n i : Nat) (l : List Nat) :
    (Decrypter.xorIdx kb n i l).length = l.length := by
  induction l generalizing i with
  | nil => rfl
  | cons b t ih => simp [Decrypter.xorIdx, ih]

theorem xorIdx_xorIdx (kb : List Nat) (n i : Nat) (l : List Nat) :
    Decrypter.xorIdx kb n i (Decrypter.xorIdx kb n i l) = l := by
  induction l generalizing i with
  | nil => rfl
  | cons b t ih =>
    by_cases h : i < n <;> simp [Decrypter.xorIdx, h, ih, Nat.xor_cancel_right]

theorem xorIdx_zero (kb : List Nat) (i : Nat) (l : List Nat) :
    Decrypter.xorIdx kb 0 i l = l := by
  induction l generalizing i <;> simp [Decrypter.xorIdx, *]

theorem xorBytes_length (d : Decrypter) (l : List Nat) :
    (d.xorBytes l).length = l.length := by
  cases hk : d.key <;> simp [Decrypter.xorBytes, hk, xorIdx_length]

theorem xorBytes_xorBytes (d : Decrypter) (l : List Nat) :
    d.xorBytes (d.xorBytes l) = l := by
  cases hk : d.key with
  | none => simp [Decrypter.xorBytes, hk]
  | some k =>
    simp only [Decrypter.xorBytes, hk]
    rw [xorIdx_length]
    exact xorIdx_xorIdx _ _ _ _

theorem buildFakeHeader_length {d : Decrypter} {fh : List Nat}
    (h : d.buildFakeHeader = some fh) : fh.length = d.getHeaderLen := by
  simp only [Decrypter.buildFakeHeader] at h
  split at h
  · cases h; simp
  · exact Option.noConfusion h

theorem verifyFakeHeader_build {d : Decrypter} {fh : List Nat}
    (h : d.buildFakeHeader = some fh) : d.verifyFakeHeader fh = some true := by
  have hlen := buildFakeHeader_length h
  simp only [Decrypter.verifyFakeHeader, h]
  rw [if_neg (by omega)]
  simp

theorem buildFakeHeader_new (k : Option Key) :
    (Decrypter.new k).buildFakeHeader = some defaultFakeHeader := rfl

theorem getHeaderLen_new (k : Option Key) :
    (Decrypter.new k).getHeaderLen = 16 := rfl

theorem verifyFakeHeader_isSome {d : Decrypter} {fh : List Nat}
    (hb : d.buildFakeHeader = some fh) (x : List Nat) :
    ∃ b, d.verifyFakeHeader x = some b := by
  simp only [Decrypter.verifyFakeHeader, hb]
  by_cases h : x.length < d.getHeaderLen
  · exact ⟨false, by rw [if_pos h]⟩
  · exact ⟨_, by rw [if_neg h]⟩

theorem getHeaderBytes_ogg_28 :
    Decrypter.getHeaderBytes Decrypter.OGG_HEADER_BYTES 28 = OGG_TRUE_HEADER := by
  decide

theorem getPngHeaderBytes_take : ∀ n < 17,
    Key.getPngHeaderBytes n = PNG_TRUE_HEADER.take n := by
  decide

theorem hexDigitVal_hexChar : ∀ d < 16, hexDigitVal (hexChar d) = some d := by
  decide

theorem isAsciiHexDigit_hexChar : ∀ d < 16, isAsciiHexDigit (hexChar d) = true := by
  decide

theorem hexChar_ne_plus : ∀ d < 16, hexChar d ≠ '+' := by
  decide

theorem parseU8_byteToHexChars (b : Nat) (hb : b < 256) :
    parseU8Radix16 (byteToHexChars b) = some b := by
  have h1 : b / 16 < 16 := by omega
  have h2 : b % 16 < 16 := by omega
  unfold byteToHexChars parseU8Radix16
  rw [if_neg (by simp [hexChar_ne_plus _ h1])]
  rw [if_neg (by simp [hexChar_ne_plus _ h1])]
  simp only [List.foldl, hexDigitVal_hexChar _ h1, hexDigitVal_hexChar _ h2]
  rw [if_pos (by omega)]
  exact congrArg some (by omega)

theorem chunks2_flatMap {α : Type} (l : List α) (f : α → List Char)
    (h : ∀ x ∈ l, ∃ c1 c2, f x = [c1, c2]) :
    chunks2 (l.flatMap f) = l.map f := by
  induction l with
  | nil => rfl
  | cons a t ih =>
    obtain ⟨c1, c2, hfa⟩ := h a (by simp)
    rw [List.flatMap_cons, hfa, List.map_cons, hfa]
    show chunks2 (c1 :: c2 :: t.flatMap f) = [c1, c2] :: t.map f
    rw [show chunks2 (c1 :: c2 :: t.flatMap f) = [c1, c2] :: chunks2 (t.flatMap f)
      from rfl]
    rw [ih (fun x hx => h x (by simp [hx]))]

theorem filterMap_all_some {α β : Type} (l : List α) (p : α → Option β) (q : α → β)
    (h : ∀ x ∈ l, p x = some (q x)) : l.filterMap p = l.map q := by
  induction l with
  | nil => rfl
  | cons a t ih =>
    rw [List.filterMap_cons, h a (by simp), List.map_cons,
      ih (fun x hx => h x (by simp [hx]))]

theorem getD_map_range (n : Nat) (f : Nat → Nat) (i : Nat) (h : i < n) :
    ((List.range n).map f).getD i 0 = f i := by
  rw [List.getD_eq_getElem?_getD, List.getElem?_map, List.getElem?_range h]
  rfl

theorem getD_lt_256 (l : List Nat) (h : ∀ b ∈ l, b < 256) (i : Nat) :
    l.getD i 0 < 256 := by
  rw [List.getD_eq_getElem?_getD]
  cases hl : l[i]? with
  | none => simp
  | some v => simpa using h v (List.getElem?_mem hl)

theorem getD_take_of_lt (l : List Nat) (n i : Nat) (h : i < n) :
    (l.take n).getD i 0 = l.getD i 0 := by
  rw [List.getD_eq_getElem?_getD, List.getD_eq_getElem?_getD,
    List.getElem?_take, if_pos h]

theorem getD_drop (l : List Nat) (n i : Nat) :
    (l.drop n).getD i 0 = l.getD (n + i) 0 := by
  rw [List.getD_eq_getElem?_getD, List.getD_eq_getElem?_getD, List.getElem?_drop]

/-!  Claim theorems. -/

/-- C2 (code-bug evaluation): on the one-byte buffer 00, a default-configured
Decrypter does not return InvalidHeader: the source slices data[0..16] before
any length check, which is an out-of-bounds panic.  On the empty buffer it
returns EmptyFile as the claim states. -/
theorem decrypt_short_buffer_panics :
    (Decrypter.new none).decrypt [0] = Res.panicked ∧
    (Decrypter.new none).decrypt [] = Res.err Err.emptyFile :=
  ⟨rfl, rfl⟩

/-- C3 counterexample: on the one-byte buffer 01 with tag OGG, the
default-configured Decrypter prepends the 27-byte table (4 magic bytes plus
23 zeros), not a 28-byte header: the static OGG table holds only 27 entries
and get_header_bytes truncates the requested 28 to the table length. -/
theorem restore_header_ogg_counterexample :
    (Decrypter.new none).restoreHeader [1] FileExtension.OGG =
      Res.ok (OGG_TRUE_HEADER ++ [1]) ∧ OGG_TRUE_HEADER.length ≠ 28 :=
  ⟨rfl, by decide⟩

/-- C3 amended: for every input buffer that does not already carry the OGG
magic and any OGG-family format tag, restore_header on a default-configured
Decrypter prepends a true header of exactly 27 bytes: the 4 magic bytes
4F 67 67 53 followed by 23 zero bytes. -/
theorem restore_header_ogg_prepends_27 (k : Option Key) (data : List Nat)
    (ft : FileExtension)
    (hft : ft = FileExtension.OGG ∨ ft = FileExtension.RPGMVO ∨ ft = FileExtension.OGG_)
    (hne : data ≠ [])
    (hnm : ¬ (4 ≤ data.length ∧ data.take 4 = [0x4F, 0x67, 0x67, 0x53])) :
    ∃ content, (Decrypter.new k).restoreHeader data ft =
      Res.ok (OGG_TRUE_HEADER ++ content) ∧ OGG_TRUE_HEADER.length = 27 := by
  have hmagic : (decide (4 ≤ data.length) &&
      (data.take 4 == ([0x4F, 0x67, 0x67, 0x53] : List Nat))) = false := by
    by_cases h4 : 4 ≤ data.length
    · have ht : data.take 4 ≠ [0x4F, 0x67, 0x67, 0x53] := fun ht => hnm ⟨h4, ht⟩
      simp [h4, ht]
    · simp [h4]
  rcases hft with h | h | h <;> subst h <;>
  · unfold Decrypter.restoreHeader
    rw [if_neg hne]
    simp only [hmagic, Bool.false_eq_true, if_false, getHeaderLen_new,
      getHeaderBytes_ogg_28]
    by_cases h16 : 16 ≤ data.length
    · rw [if_pos h16]
      obtain ⟨b, hb⟩ := verifyFakeHeader_isSome (buildFakeHeader_new k) (data.take 16)
      rw [hb]
      cases b
      · exact ⟨data, rfl, rfl⟩
      · rw [show (Decrypter.new k).oggHeaderLen.getD 28 = 28 from rfl]
        refine ⟨data.drop 16, ?_, rfl⟩
        simp only [getHeaderBytes_ogg_28]
        rw [if_neg (by omega : ¬ data.length < 16)]
        simp
    · rw [if_neg h16]
      exact ⟨data, rfl, rfl⟩

/-- C3 amended witness: concrete instance at input 01 with tag OGG. -/
theorem restore_header_ogg_prepends_27_witness :
    ∃ content, (Decrypter.new none).restoreHeader [1] FileExtension.OGG =
      Res.ok (OGG_TRUE_HEADER ++ content) ∧ OGG_TRUE_HEADER.length = 27 :=
  restore_header_ogg_prepends_27 none [1] FileExtension.OGG (Or.inl rfl)
    (by decide) (by decide)

/-- C4 counterexample: the odd-length all-hex string abc is accepted by
Key::new (the trailing unpaired nibble c decodes to byte 12), refuting the
claim that odd length yields none. -/
theorem key_new_odd_length_counterexample :
    Key.new "abc".toList = some { raw := "abc".toList, bytes := [171, 12] } :=
  rfl

/-- C4 amended: Key::new returns none exactly when the string contains a
character that is not an ASCII hex digit; an odd-length all-hex string is
accepted, its trailing unpaired nibble decoded as a one-digit byte. -/
theorem key_new_none_iff (s : List Char) :
    Key.new s = none ↔ ¬ (∀ c ∈ s, isAsciiHexDigit c = true) := by
  by_cases h : Key.isValidHex s = true
  · rw [Key.new, if_pos h]
    simp only [Key.isValidHex, List.all_eq_true] at h
    simpa using h
  · rw [Key.new, if_neg h]
    simp only [Key.isValidHex, List.all_eq_true] at h
    simp [h]

/-- C7: converting to plain maps each encrypted tag, independently of the
generation, to the unique non-encrypted tag of the same MIME type, and keeps
plain tags unchanged; converting to encrypted keeps encrypted tags unchanged
and maps each plain tag to the generation-specific encrypted tag. -/
theorem file_extension_convert_spec :
    ∀ (t : FileExtension) (v w : RPGMakerVersion),
      (t.isEncrypted = true →
        t.convert true v = t.convert true w ∧
        (t.convert true v).isEncrypted = false ∧
        (t.convert true v).getMimeType = t.getMimeType) ∧
      (t.isEncrypted = false → t.convert true v = t) ∧
      (t.isEncrypted = true → t.convert false v = t) ∧
      (FileExtension.PNG.convert false RPGMakerVersion.MV = FileExtension.RPGMVP) ∧
      (FileExtension.OGG.convert false RPGMakerVersion.MV = FileExtension.RPGMVO) ∧
      (FileExtension.M4A.convert false RPGMakerVersion.MV = FileExtension.RPGMVM) ∧
      (FileExtension.PNG.convert false RPGMakerVersion.MZ = FileExtension.PNG_) ∧
      (FileExtension.OGG.convert false RPGMakerVersion.MZ = FileExtension.OGG_) ∧
      (FileExtension.M4A.convert false RPGMakerVersion.MZ = FileExtension.M4A_) := by
  decide

/-- C7 witness: the conversion properties instantiated at the encrypted tag
RPGMVP and both generations. -/
theorem file_extension_convert_spec_witness :
    FileExtension.RPGMVP.convert true RPGMakerVersion.MV =
      FileExtension.RPGMVP.convert true RPGMakerVersion.MZ ∧
    (FileExtension.RPGMVP.convert true RPGMakerVersion.MV).isEncrypted = false ∧
    (FileExtension.RPGMVP.convert true RPGMakerVersion.MV).getMimeType =
      FileExtension.RPGMVP.getMimeType :=
  (file_extension_convert_spec FileExtension.RPGMVP RPGMakerVersion.MV
    RPGMakerVersion.MZ).1 rfl

/-- C5: for every Decrypter whose concatenated signature, version and remain
hex strings hold at least 2 * header_len characters (that is, decode to at
least header_len bytes), build_fake_header succeeds and verify_fake_header
accepts its output. -/
theorem verify_build_fake_header (d : Decrypter)
    (h : 2 * d.getHeaderLen ≤ (d.getSignature ++ d.getVersion ++ d.getRemain).length) :
    ∃ fh, d.buildFakeHeader = some fh ∧ d.verifyFakeHeader fh = some true := by
  have hb : d.buildFakeHeader = some ((List.range d.getHeaderLen).map fun i =>
      (parseU8Radix16 (((d.getSignature ++ d.getVersion ++ d.getRemain).drop
        (i * 2)).take 2)).getD 0) := by
    simp only [Decrypter.buildFakeHeader]
    rw [if_pos h]
  exact ⟨_, hb, verifyFakeHeader_build hb⟩

/-- C5 witness: the default configuration has 32 hex characters, at least
2 * 16, and the built fake header verifies. -/
theorem verify_build_fake_header_witness :
    ∃ fh, (Decrypter.new none).buildFakeHeader = some fh ∧
      (Decrypter.new none).verifyFakeHeader fh = some true :=
  verify_build_fake_header (Decrypter.new none) (by decide)

/-- Every non-empty buffer makes restore_header on a default-configured
Decrypter return Ok: the error and panic arms are unreachable. -/
theorem restoreHeader_new_ok (k : Option Key) (data : List Nat)
    (ft : FileExtension) (hne : data ≠ []) :
    ∃ out, (Decrypter.new k).restoreHeader data ft = Res.ok out := by
  cases hres : (Decrypter.new k).restoreHeader data ft with
  | ok out => exact ⟨out, rfl⟩
  | err e =>
    exfalso
    unfold Decrypter.restoreHeader at hres
    rw [if_neg hne] at hres
    simp only [] at hres
    split at hres
    · exact Res.noConfusion hres
    · split at hres
      · exact Res.noConfusion hres
      · split at hres
        · split at hres
          · rename_i hsome hfake hlt
            split at hsome
            · rename_i h16
              omega
            · cases hsome
              exact Bool.noConfusion hfake
          · exact Res.noConfusion hres
        · exact Res.noConfusion hres
  | panicked =>
    exfalso
    unfold Decrypter.restoreHeader at hres
    rw [if_neg hne] at hres
    simp only [] at hres
    split at hres
    · exact Res.noConfusion hres
    · split at hres
      · rename_i hnone
        split at hnone
        · obtain ⟨b, hbv⟩ :=
            verifyFakeHeader_isSome (buildFakeHeader_new k) (data.take 16)
          rw [show Decrypter.getHeaderLen (Decrypter.new k) = 16 from rfl] at hnone
          rw [hbv] at hnone
          exact Option.noConfusion hnone
        · exact Option.noConfusion hnone
      · split at hres
        · split at hres
          · exact Res.noConfusion hres
          · exact Res.noConfusion hres
        · exact Res.noConfusion hres

/-- C9: restore_header on a default-configured Decrypter returns an error
exactly when the input buffer is empty, and that error is EmptyFile; every
non-empty buffer yields Ok, so the InvalidHeader branch inside
restore_header is unreachable. -/
theorem restore_header_err_iff_empty (k : Option Key) (data : List Nat)
    (ft : FileExtension) :
    ((Decrypter.new k).restoreHeader [] ft = Res.err Err.emptyFile) ∧
    (data ≠ [] → ∃ out, (Decrypter.new k).restoreHeader data ft = Res.ok out) :=
  ⟨rfl, fun hne => restoreHeader_new_ok k data ft hne⟩

/-- C9 witness: concrete instances on the empty buffer and on a one-byte
buffer with the PNG tag. -/
theorem restore_header_err_iff_empty_witness :
    ((Decrypter.new none).restoreHeader [] FileExtension.PNG = Res.err Err.emptyFile) ∧
    (∃ out, (Decrypter.new none).restoreHeader [1] FileExtension.PNG = Res.ok out) :=
  ⟨(restore_header_err_iff_empty none [1] FileExtension.PNG).1,
   (restore_header_err_iff_empty none [1] FileExtension.PNG).2 (by decide)⟩

/-- C6: a buffer that already starts with the true-format magic for the
given tag (4 magic bytes for the OGG family, the 8-byte PNG signature for
the PNG family, ftyp at bytes 4..8 for the M4A family) is returned unchanged
by restore_header, under any Decrypter configuration. -/
theorem restore_header_already_valid (d : Decrypter) (data : List Nat)
    (ft : FileExtension)
    (h :
      ((ft = FileExtension.OGG ∨ ft = FileExtension.RPGMVO ∨ ft = FileExtension.OGG_) ∧
        4 ≤ data.length ∧ data.take 4 = [0x4F, 0x67, 0x67, 0x53]) ∨
      ((ft = FileExtension.PNG ∨ ft = FileExtension.RPGMVP ∨ ft = FileExtension.PNG_) ∧
        8 ≤ data.length ∧ data.take 8 = pngMagic8) ∨
      ((ft = FileExtension.M4A ∨ ft = FileExtension.RPGMVM ∨ ft = FileExtension.M4A_) ∧
        8 ≤ data.length ∧ (data.drop 4).take 4 = [0x66, 0x74, 0x79, 0x70])) :
    d.restoreHeader data ft = Res.ok data := by
  have hne : data ≠ [] := by
    rcases h with ⟨_, hlen, _⟩ | ⟨_, hlen, _⟩ | ⟨_, hlen, _⟩ <;>
      (intro he; subst he; simp at hlen)
  rcases h with ⟨hf, hlen, ht⟩ | ⟨hf, hlen, ht⟩ | ⟨hf, hlen, ht⟩ <;>
    rcases hf with hf | hf | hf <;> subst hf <;>
    simp [Decrypter.restoreHeader, hne, hlen, ht, pngMagic8]

/-- C6 witness: the bare 8-byte PNG signature with the PNG tag is returned
unchanged. -/
theorem restore_header_already_valid_witness :
    (Decrypter.new none).restoreHeader pngMagic8 FileExtension.PNG =
      Res.ok pngMagic8 :=
  restore_header_already_valid (Decrypter.new none) pngMagic8 FileExtension.PNG
    (Or.inr (Or.inl ⟨Or.inl rfl, by decide, by decide⟩))

/-- For any Decrypter whose fake header builds and whose ignore flag is off,
encrypt prepends the fake header to the XORed payload and decrypt inverts
it exactly. -/
theorem encrypt_decrypt_general (d : Decrypter) (fh : List Nat)
    (hb : d.buildFakeHeader = some fh)
    (hifh : d.ignoreFakeHeader = false)
    (x : List Nat) (hx : x ≠ []) :
    d.encrypt x = Res.ok (fh ++ d.xorBytes x) ∧
    d.decrypt (fh ++ d.xorBytes x) = Res.ok x := by
  have hfl : fh.length = d.getHeaderLen := buildFakeHeader_length hb
  have hcl := xorBytes_length d x
  have hxpos := List.length_pos.mpr hx
  have htake : (fh ++ d.xorBytes x).take d.getHeaderLen = fh := by
    rw [← hfl]
    exact List.take_left _ _
  have hdrop : (fh ++ d.xorBytes x).drop d.getHeaderLen = d.xorBytes x := by
    rw [← hfl]
    exact List.drop_left _ _
  have hlnot : ¬ (fh ++ d.xorBytes x).length < d.getHeaderLen := by
    rw [List.length_append, hfl]
    omega
  have hne2 : fh ++ d.xorBytes x ≠ [] := by
    intro hc
    have hlc := congrArg List.length hc
    rw [List.length_append, hcl, List.length_nil] at hlc
    omega
  constructor
  · simp only [Decrypter.encrypt, if_neg hx, hb]
    rw [if_neg hlnot, htake, verifyFakeHeader_build hb]
  · simp only [Decrypter.decrypt, if_neg hne2]
    rw [if_neg (show ¬ d.ignoreFakeHeader = true by simp [hifh])]
    rw [if_neg hlnot, htake, verifyFakeHeader_build hb]
    rw [if_neg hlnot, hdrop, xorBytes_xorBytes]

/-- C1: with any key and the default configuration, encrypt succeeds on a
non-empty buffer and decrypt recovers the buffer exactly. -/
theorem decrypt_encrypt_roundtrip (x : List Nat) (k : Key) (hx : x ≠ []) :
    ∃ y, (Decrypter.new (some k)).encrypt x = Res.ok y ∧
      (Decrypter.new (some k)).decrypt y = Res.ok x := by
  obtain ⟨he, hdec⟩ := encrypt_decrypt_general (Decrypter.new (some k))
    defaultFakeHeader (buildFakeHeader_new _) rfl x hx
  exact ⟨_, he, hdec⟩

/-- C1 witness: key deadbeef, the five bytes of Hello, round-trips. -/
theorem decrypt_encrypt_roundtrip_witness :
    ∃ y, (Decrypter.new (some sampleKey)).encrypt [72, 101, 108, 108, 111] =
      Res.ok y ∧
      (Decrypter.new (some sampleKey)).decrypt y =
      Res.ok [72, 101, 108, 108, 111] :=
  decrypt_encrypt_roundtrip [72, 101, 108, 108, 111] sampleKey (by decide)

/-- C8: from_png_header returns none when data is shorter than
2 * header_len bytes; otherwise, for header_len at most 16 and byte-valued
data, it returns a key whose byte i, for every i below header_len, is the
byte i of the public PNG magic header XORed with byte header_len + i of the
data. -/
theorem from_png_header_spec (headerLen : Nat) (data : List Nat) :
    (data.length < headerLen * 2 →
      Key.fromPngHeader headerLen data = Res.ok none) ∧
    (headerLen ≤ 16 → headerLen * 2 ≤ data.length → (∀ b ∈ data, b < 256) →
      ∃ k, Key.fromPngHeader headerLen data = Res.ok (some k) ∧
        ∀ i, i < headerLen →
          k.bytes.getD i 0 =
            (PNG_TRUE_HEADER.getD i 0) ^^^ (data.getD (headerLen + i) 0)) := by
  constructor
  · intro h
    unfold Key.fromPngHeader
    rw [if_pos h]
  · intro h16 hlen hbytes
    have hpng : Key.getPngHeaderBytes headerLen = PNG_TRUE_HEADER.take headerLen :=
      getPngHeaderBytes_take headerLen (by omega)
    have hpl : (Key.getPngHeaderBytes headerLen).length = headerLen := by
      rw [hpng, List.length_take]
      have h17 : PNG_TRUE_HEADER.length = 16 := rfl
      omega
    have hlt : ∀ i, (Key.getPngHeaderBytes headerLen).getD i 0 ^^^
        (((data.drop headerLen).take headerLen).getD i 0) < 256 := by
      intro i
      have hA : (Key.getPngHeaderBytes headerLen).getD i 0 < 256 := by
        apply getD_lt_256
        intro b hb
        rw [hpng] at hb
        have hall : ∀ b ∈ PNG_TRUE_HEADER, b < 256 := by decide
        exact hall b (List.take_subset headerLen PNG_TRUE_HEADER hb)
      have hB : (((data.drop headerLen).take headerLen).getD i 0) < 256 := by
        apply getD_lt_256
        intro b hb
        exact hbytes b (List.drop_subset headerLen data (List.take_subset headerLen _ hb))
      have e : (256 : Nat) = 2 ^ 8 := by norm_num
      rw [e] at hA hB ⊢
      exact Nat.xor_lt_two_pow hA hB
    have hvalid : Key.isValidHex ((List.range headerLen).flatMap fun i =>
        byteToHexChars ((Key.getPngHeaderBytes headerLen).getD i 0 ^^^
          (((data.drop headerLen).take headerLen).getD i 0))) = true := by
      unfold Key.isValidHex
      rw [List.all_eq_true]
      intro c hc
      rw [List.mem_flatMap] at hc
      obtain ⟨i, hi, hci⟩ := hc
      have hb := hlt i
      unfold byteToHexChars at hci
      simp only [List.mem_cons, List.not_mem_nil, or_false] at hci
      rcases hci with h | h <;> subst h
      · exact isAsciiHexDigit_hexChar _ (by omega)
      · exact isAsciiHexDigit_hexChar _ (by omega)
    have hknew : Key.new ((List.range headerLen).flatMap fun i =>
        byteToHexChars ((Key.getPngHeaderBytes headerLen).getD i 0 ^^^
          (((data.drop headerLen).take headerLen).getD i 0))) =
        some (Key.mk
          ((List.range headerLen).flatMap fun i =>
            byteToHexChars ((Key.getPngHeaderBytes headerLen).getD i 0 ^^^
              (((data.drop headerLen).take headerLen).getD i 0)))
          ((List.range headerLen).map fun i =>
            (Key.getPngHeaderBytes headerLen).getD i 0 ^^^
              (((data.drop headerLen).take headerLen).getD i 0))) := by
      unfold Key.new
      rw [if_pos hvalid]
      have hb2 : (chunks2 ((List.range headerLen).flatMap fun i =>
          byteToHexChars ((Key.getPngHeaderBytes headerLen).getD i 0 ^^^
            (((data.drop headerLen).take headerLen).getD i 0)))).filterMap
            parseU8Radix16 =
          (List.range headerLen).map fun i =>
            (Key.getPngHeaderBytes headerLen).getD i 0 ^^^
              (((data.drop headerLen).take headerLen).getD i 0) := by
        rw [chunks2_flatMap (List.range headerLen)
          (fun i => byteToHexChars ((Key.getPngHeaderBytes headerLen).getD i 0 ^^^
            (((data.drop headerLen).take headerLen).getD i 0)))
          (fun x _ => ⟨_, _, rfl⟩)]
        rw [List.filterMap_map]
        exact filterMap_all_some _ _ _ (fun i _ => parseU8_byteToHexChars _ (hlt i))
      rw [hb2]
    refine ⟨Key.mk
      ((List.range headerLen).flatMap fun i =>
        byteToHexChars ((Key.getPngHeaderBytes headerLen).getD i 0 ^^^
          (((data.drop headerLen).take headerLen).getD i 0)))
      ((List.range headerLen).map fun i =>
        (Key.getPngHeaderBytes headerLen).getD i 0 ^^^
          (((data.drop headerLen).take headerLen).getD i 0)), ?_, ?_⟩
    · unfold Key.fromPngHeader
      rw [if_neg (by omega)]
      rw [if_neg (by rw [hpl]; omega)]
      simp only [hknew]
    · intro i hi
      show ((List.range headerLen).map fun i =>
          (Key.getPngHeaderBytes headerLen).getD i 0 ^^^
            (((data.drop headerLen).take headerLen).getD i 0)).getD i 0 = _
      rw [getD_map_range _ _ _ hi]
      congr 1
      · rw [hpng, getD_take_of_lt _ _ _ hi]
      · rw [getD_take_of_lt _ _ _ hi, getD_drop]

/-- C8 witness: header_len 16 and a 32-byte buffer whose second half XORs
against the PNG magic to the recovered key bytes. -/
theorem from_png_header_spec_witness :
    ∃ k, Key.fromPngHeader 16 (List.replicate 32 1) = Res.ok (some k) ∧
      ∀ i, i < 16 →
        k.bytes.getD i 0 =
          (PNG_TRUE_HEADER.getD i 0) ^^^ ((List.replicate 32 1).getD (16 + i) 0) :=
  (from_png_header_spec 16 (List.replicate 32 1)).2 (by omega) (by decide)
    (by decide)

/-- C10: the empty string is a valid key with an empty byte sequence, and
the XOR step of a Decrypter holding that key changes no bytes, matching the
keyless Decrypter exactly. -/
theorem key_new_empty_xor_noop :
    ∃ k, Key.new [] = some k ∧ k.bytes = [] ∧
      ∀ (d : Decrypter) (data : List Nat),
        Decrypter.xorBytes { d with key := some k } data = data ∧
        Decrypter.xorBytes { d with key := none } data = data := by
  refine ⟨{ raw := [], bytes := [] }, rfl, rfl, fun d data => ⟨?_, rfl⟩⟩
  simp [Decrypter.xorBytes, xorIdx_zero]

end RpgmEnc
